import Mathlib

/-!
# Verification of the Spacy-BIST parser glue module

Shallow embedding of `nlp_architect/pipelines/spacy_bist/parser.py`:
the tag normalizer `spacy_pos_to_ptb`, the tabular conversion `to_conll`,
and the pipeline driver `parse` with its conjunction-relation resolution.

The two external capabilities (the Spacy annotator and the BIST model's
`predict_conll`) are not part of the repository's source; following the
spec they are treated as opaque deterministic functions and passed in as
parameters: the annotator maps text to sentences of tokens, and the
predictor augments every tabular token with a predicted governor index
and relation label, preserving the sentence structure.
-/

set_option autoImplicit false

/-- A token as produced by the external Spacy annotator: surface text,
fine-grained tag (`tag_`), lemma (`lemma_`), entity type (`ent_type_`),
character offset (`idx`) and the whitespace flag (`is_space`). -/
structure SpacyToken where
  text : String
  tag : String
  lemma_ : String
  ent_type : String
  idx : Nat
  is_space : Bool
deriving DecidableEq

/-- The dynamically typed `misc` field of a tabular entry: the synthetic
root entry stores the string underscore there, real tokens store the
character offset of the token. -/
inductive Misc where
  | underscore : Misc
  | offset : Nat → Misc
deriving DecidableEq

/-- Modelled from the spec: the tabular per-token container (`ConllEntry`
from `nlp_architect/data/conll.py`, a plain data holder not under the
sources verified here); fields in the positional order of the constructor
calls in `to_conll`. -/
structure ConllEntry where
  id : Nat
  form : String
  lemma_ : String
  pos : String
  cpos : String
  feats : String
  parent_id : Int
  relation : String
  deps : String
  misc : Misc
deriving DecidableEq

/-- A tabular entry augmented by the external prediction step with a
predicted governor index and a predicted relation label. -/
structure PredEntry where
  entry : ConllEntry
  pred_parent_id : Int
  pred_relation : String
deriving DecidableEq

/-- A dynamically typed Python value, as far as the runtime type checks
at the top of `parse` and `to_conll` distinguish them. -/
inductive PyVal where
  | str : String → PyVal
  | bool : Bool → PyVal
  | int : Int → PyVal
  | none : PyVal
deriving DecidableEq

/-- `isinstance(x, str)` on the embedded dynamic values. -/
def PyVal.isStr : PyVal → Bool
  | PyVal.str _ => true
  | _ => false

/-- `type(x) is bool` on the embedded dynamic values. -/
def PyVal.isBool : PyVal → Bool
  | PyVal.bool _ => true
  | _ => false

/-- `spacy_pos_to_ptb(pos, text)`: converts a Spacy part-of-speech tag to
a Penn Treebank tag, translated branch by branch from the source. -/
def spacy_pos_to_ptb (pos text : String) : String :=
  if text = "..." then ":"
  else if text = "*" then "SYM"
  else if pos = "AFX" then "JJ"
  else if pos = "ADD" then "NN"
  else if text ≠ pos ∧ text ∈ [",", ".", ":", "``", "-RRB-", "-LRB-"] then text
  else if pos ∈ ["NFP", "HYPH", "XX"] then "SYM"
  else pos

/-- The synthetic root entry opening every tabular sentence:
`ConllEntry(0, '*root*', '*root*', 'ROOT-POS', 'ROOT-CPOS', '_', -1, 'rroot', '_', '_')`. -/
def rootEntry : ConllEntry :=
  { id := 0, form := "*root*", lemma_ := "*root*", pos := "ROOT-POS",
    cpos := "ROOT-CPOS", feats := "_", parent_id := -1, relation := "rroot",
    deps := "_", misc := Misc.underscore }

/-- The tabular entry built for a surviving token when the running counter
is `i`: `ConllEntry(i_tok + 1, text, lemma, pos, pos, ent_type, -1, '_', '_', idx)`
with `pos` already passed through `spacy_pos_to_ptb`. -/
def tokenEntry (i : Nat) (tok : SpacyToken) : ConllEntry :=
  let pos := spacy_pos_to_ptb tok.tag tok.text
  { id := i + 1, form := tok.text, lemma_ := tok.lemma_, pos := pos, cpos := pos,
    feats := tok.ent_type, parent_id := -1, relation := "_", deps := "_",
    misc := Misc.offset tok.idx }

/-- The token loop of `to_conll` for one sentence: skips whitespace
tokens, skips a token whose text is a hyphen with tag HYPH, and otherwise
appends a tabular entry and advances the counter `i_tok`. -/
def conllBody : List SpacyToken → Nat → List ConllEntry
  | [], _ => []
  | tok :: rest, i =>
    if tok.is_space = false then
      if tok.text ≠ "-" ∨ tok.tag ≠ "HYPH" then
        tokenEntry i tok :: conllBody rest (i + 1)
      else conllBody rest i
    else conllBody rest i

/-- One sentence of `to_conll`: the synthetic root entry followed by the
entries of the surviving tokens. -/
def sentence_conll (toks : List SpacyToken) : List ConllEntry :=
  rootEntry :: conllBody toks 0

/-- `to_conll(doc_text)`: guarded by `isinstance(doc_text, str)`; on a
string it runs the annotator and converts every detected sentence,
otherwise it yields nothing. -/
def to_conll (annotator : String → List (List SpacyToken)) (doc_text : PyVal) :
    List (List ConllEntry) :=
  match doc_text with
  | PyVal.str s => (annotator s).map sentence_conll
  | _ => []

/-- Modelled from the spec: the external BIST model's `predict_conll`
capability returns the same sentences with every token augmented with a
predicted governor index and relation label; the oracle gives the
prediction for the token at sentence index `si`, position `ti`. -/
def predictSentence (oracle : Nat → Nat → Int × String) (si : Nat)
    (sent : List ConllEntry) : List PredEntry :=
  sent.mapIdx fun ti e => ⟨e, (oracle si ti).1, (oracle si ti).2⟩

/-- Modelled from the spec: `predict_conll` over the whole document. -/
def predict_conll (oracle : Nat → Nat → Int × String)
    (doc : List (List ConllEntry)) : List (List PredEntry) :=
  doc.mapIdx fun si sent => predictSentence oracle si sent

/-- The ephemeral per-sentence state `conj_governors`: the set of governor
indices of tokens spelled "and" and the set for tokens spelled "or".
Python sets are used only through insertion and membership, so lists with
membership model them. -/
structure ConjSets where
  andG : List Int
  orG : List Int
deriving DecidableEq

/-- The `conj_governors` dictionary right after `parsed_sent = []`:
both sets empty. -/
def emptySets : ConjSets := { andG := [], orG := [] }

/-- Python's `str.lower()` as used on token forms: character-wise
lowercasing of the string. -/
def strLower (s : String) : String := ⟨s.data.map Char.toLower⟩

/-- The set updates for one non-root token: if its lowercased form is
"and" its predicted governor joins the and-set, if "or" the or-set. -/
def stepSets (sets : ConjSets) (tok : PredEntry) : ConjSets :=
  let s1 := if strLower tok.entry.form = "and"
    then { sets with andG := tok.pred_parent_id :: sets.andG } else sets
  if strLower tok.entry.form = "or"
    then { s1 with orG := tok.pred_parent_id :: s1.orG } else s1

/-- The relation rewriting for one token, given the sets as they stand
after that token's own update: for a "conj" relation, first append "_and"
when the governor is in the and-set, then append "_or" when it is in the
or-set. -/
def resolveRel (sets : ConjSets) (tok : PredEntry) : String :=
  if tok.pred_relation = "conj" then
    let r1 := if tok.pred_parent_id ∈ sets.andG
      then tok.pred_relation ++ "_and" else tok.pred_relation
    if tok.pred_parent_id ∈ sets.orG then r1 ++ "_or" else r1
  else tok.pred_relation

/-- The output record of `parse` for one token: a dictionary with keys
start, len, pos, ner, lemma, gov, rel and, when `show_tok` holds, text.
The optional text field models the presence of the 'text' key. -/
structure ParsedTok where
  start : Misc
  len : Nat
  pos : String
  ner : String
  lemma_ : String
  gov : Int
  rel : String
  text : Option String
deriving DecidableEq

/-- The `parsed_tok` record built for one non-root token, with the
conjunction sets as they stand after the token's own update. -/
def mkParsedTok (tokText : Bool) (sets : ConjSets) (tok : PredEntry) : ParsedTok :=
  { start := tok.entry.misc, len := tok.entry.form.length, pos := tok.entry.pos,
    ner := tok.entry.feats, lemma_ := tok.entry.lemma_,
    gov := tok.pred_parent_id - 1, rel := resolveRel sets tok,
    text := if tokText then some tok.entry.form else Option.none }

/-- The per-sentence token loop of `parse`: root-form tokens are skipped
entirely; a non-root token first updates the conjunction sets, then its
record is emitted against the updated sets. -/
def processSentence (tokText : Bool) : ConjSets → List PredEntry → List ParsedTok
  | _, [] => []
  | sets, tok :: rest =>
    if tok.entry.form = "*root*" then processSentence tokText sets rest
    else
      let sets' := stepSets sets tok
      mkParsedTok tokText sets' tok :: processSentence tokText sets' rest

/-- The sentence loop of `parse`: each predicted sentence is processed
with fresh empty conjunction sets and appended only when non-empty
(Python's `if parsed_sent:` truthiness test). -/
def assembleSentences (tokText : Bool) : List (List PredEntry) → List (List ParsedTok)
  | [] => []
  | sent :: rest =>
    let parsed_sent := processSentence tokText emptySets sent
    if parsed_sent ≠ [] then parsed_sent :: assembleSentences tokText rest
    else assembleSentences tokText rest

/-- Modelled from the spec: the output container `CoreNLPDoc` (a plain
data holder not under the sources verified here) — optional raw document
text plus the list of per-sentence token-record lists. -/
structure CoreNLPDoc where
  doc_text : Option String
  sentences : List (List ParsedTok)
deriving DecidableEq

/-- `parse(doc_text, show_tok, show_doc)`: the runtime type guard
(`isinstance(doc_text, str) and type(show_tok) is bool and
type(show_doc) is bool`) admits exactly a string and two booleans;
otherwise the Python function falls through and returns None. On the
happy path the annotator output is converted, predicted and assembled. -/
def parse (annotator : String → List (List SpacyToken))
    (oracle : Nat → Nat → Int × String)
    (doc_text tokFlag docFlag : PyVal) : Option CoreNLPDoc :=
  match doc_text, tokFlag, docFlag with
  | PyVal.str s, PyVal.bool st, PyVal.bool sd =>
    let doc_conll := to_conll annotator (PyVal.str s)
    let predicted := predict_conll oracle doc_conll
    some { doc_text := if sd then some s else Option.none,
           sentences := assembleSentences st predicted }
  | _, _, _ => Option.none

/-- Modelled from the spec: the rule table of §4.1 written exactly in the
spec's wording and precedence (first match wins), with the spec's operand
order `tag != surfaceText` in rule 5. -/
def normalize_spec (tag text : String) : String :=
  if text = "..." then ":"
  else if text = "*" then "SYM"
  else if tag = "AFX" then "JJ"
  else if tag = "ADD" then "NN"
  else if tag ≠ text ∧ text ∈ [",", ".", ":", "``", "-RRB-", "-LRB-"] then text
  else if tag ∈ ["NFP", "HYPH", "XX"] then "SYM"
  else tag

/-- Claim C1: `spacy_pos_to_ptb(tag, text)` applies exactly the fixed
precedence-ordered rule table of the spec, first match wins, and is total
over all pairs of strings (the Lean function is total by construction);
in particular the four quoted evaluations hold. -/
theorem C1_normalizer_matches_rule_table :
    (∀ tag text, spacy_pos_to_ptb tag text = normalize_spec tag text)
    ∧ spacy_pos_to_ptb "..." "..." = ":"
    ∧ spacy_pos_to_ptb "*" "*" = "SYM"
    ∧ spacy_pos_to_ptb "AFX" "x" = "JJ"
    ∧ spacy_pos_to_ptb "NNP" "dog" = "NNP" := by
  refine ⟨fun tag text => ?_, rfl, rfl, rfl, rfl⟩
  unfold spacy_pos_to_ptb normalize_spec
  split_ifs <;> try rfl
  all_goals tauto

/-- Claim C2: during the per-sentence left-to-right scan, a non-root token
spelled "and" ("or") pushes its predicted governor into the and-set
(or-set) and otherwise the sets are unchanged; the token's record is
emitted against the sets as updated by that very token; and a "conj"
token's emitted relation is the base label with "_and" appended first when
its governor is in the and-set and "_or" appended second when it is in the
or-set, both suffixes stacking to "conj_and_or". -/
theorem C2_conjunction_scan_step (tokText : Bool) (sets : ConjSets)
    (tok : PredEntry) (hroot : tok.entry.form ≠ "*root*") :
    (strLower tok.entry.form = "and" →
      stepSets sets tok = { sets with andG := tok.pred_parent_id :: sets.andG })
    ∧ (strLower tok.entry.form = "or" →
      stepSets sets tok = { sets with orG := tok.pred_parent_id :: sets.orG })
    ∧ (strLower tok.entry.form ≠ "and" → strLower tok.entry.form ≠ "or" →
      stepSets sets tok = sets)
    ∧ (∀ rest, processSentence tokText sets (tok :: rest)
        = mkParsedTok tokText (stepSets sets tok) tok
          :: processSentence tokText (stepSets sets tok) rest)
    ∧ (tok.pred_relation = "conj" →
      (mkParsedTok tokText (stepSets sets tok) tok).rel
        = (if tok.pred_parent_id ∈ (stepSets sets tok).andG
            then "conj" ++ "_and" else "conj")
          ++ (if tok.pred_parent_id ∈ (stepSets sets tok).orG
            then "_or" else "")) := by
  refine ⟨fun hand => ?_, fun hor => ?_, fun hand hor => ?_, fun rest => ?_,
    fun hconj => ?_⟩
  · simp [stepSets, hand]
  · simp [stepSets, hor]
  · simp [stepSets, hand, hor]
  · rw [processSentence, if_neg hroot]
  · simp only [mkParsedTok, resolveRel, hconj, if_pos rfl]
    split_ifs <;> simp [String.append_assoc]

/-- A concrete predicted token: the word "and" depending on governor 3. -/
def andSample : PredEntry :=
  ⟨⟨2, "and", "and", "CC", "CC", "", -1, "_", "_", Misc.offset 4⟩, 3, "cc"⟩

/-- A concrete predicted token: the word "or" depending on governor 3. -/
def orSample : PredEntry :=
  ⟨⟨3, "or", "or", "CC", "CC", "", -1, "_", "_", Misc.offset 8⟩, 3, "cc"⟩

/-- A concrete predicted token: "Jerry" as a conjunct of governor 3. -/
def conjSample : PredEntry :=
  ⟨⟨4, "Jerry", "Jerry", "NNP", "NNP", "PERSON", -1, "_", "_", Misc.offset 11⟩,
    3, "conj"⟩

/-- Witness for C2 at a concrete input: with governor 3 already in both
sets, the conjunct's emitted relation is "conj_and_or". -/
theorem C2_conjunction_scan_step_witness :
    (mkParsedTok true (stepSets ⟨[3], [3]⟩ conjSample) conjSample).rel
      = "conj_and_or" := by
  rw [(C2_conjunction_scan_step true ⟨[3], [3]⟩ conjSample (by decide)).2.2.2.2
    rfl]
  decide

/-- Claim C4: every emitted record's gov field is the predicted governor
index minus one (positionally, the gov fields of a processed sentence are
exactly the decremented predicted governors of its non-root tokens), and
a token governed by the root (predicted governor 0) gets gov = -1. -/
theorem C4_governor_decremented :
    (∀ tokText sets l, (processSentence tokText sets l).map ParsedTok.gov
      = (l.filter fun t => t.entry.form != "*root*").map
          fun t => t.pred_parent_id - 1)
    ∧ (∀ tokText sets tok, tok.pred_parent_id = 0 →
        (mkParsedTok tokText sets tok).gov = -1) := by
  constructor
  · intro tokText sets l
    induction l generalizing sets with
    | nil => rfl
    | cons tok rest ih =>
      by_cases h : tok.entry.form = "*root*"
      · rw [processSentence, if_pos h]
        simp [List.filter_cons, h, ih]
      · rw [processSentence, if_neg h]
        simp [List.filter_cons, h, ih, mkParsedTok]
  · intro tokText sets tok h
    simp [mkParsedTok, h]

/-- A concrete predicted token whose predicted governor is the root. -/
def rootGovSample : PredEntry :=
  ⟨⟨1, "Tom", "Tom", "NNP", "NNP", "PERSON", -1, "_", "_", Misc.offset 0⟩,
    0, "nsubj"⟩

/-- Witness for C4 at a concrete input: a token with predicted governor 0
is emitted with gov = -1. -/
theorem C4_governor_decremented_witness :
    (mkParsedTok true emptySets rootGovSample).gov = -1 :=
  C4_governor_decremented.2 true emptySets rootGovSample rfl

/-- Claim C10: positionally, the len fields of a processed sentence are
the character lengths of its non-root tokens' surface forms, whatever the
token-text flag is; the flag changes no field other than the presence of
the text entry; with the flag set the text entry holds the surface form,
without it the entry is absent. -/
theorem C10_len_field_and_text_flag :
    (∀ tokText sets l, (processSentence tokText sets l).map ParsedTok.len
      = (l.filter fun t => t.entry.form != "*root*").map
          fun t => t.entry.form.length)
    ∧ (∀ t1 t2 sets l,
        (processSentence t1 sets l).map (fun p => { p with text := Option.none })
          = (processSentence t2 sets l).map fun p => { p with text := Option.none })
    ∧ (∀ sets tok, (mkParsedTok true sets tok).text = some tok.entry.form
        ∧ (mkParsedTok false sets tok).text = Option.none) := by
  refine ⟨fun tokText sets l => ?_, fun t1 t2 sets l => ?_,
    fun sets tok => ⟨rfl, rfl⟩⟩
  · induction l generalizing sets with
    | nil => rfl
    | cons tok rest ih =>
      by_cases h : tok.entry.form = "*root*"
      · rw [processSentence, if_pos h]
        simp [List.filter_cons, h, ih]
      · rw [processSentence, if_neg h]
        simp [List.filter_cons, h, ih, mkParsedTok]
  · induction l generalizing sets with
    | nil => rfl
    | cons tok rest ih =>
      by_cases h : tok.entry.form = "*root*"
      · rw [processSentence, processSentence, if_pos h, if_pos h]
        exact ih sets
      · rw [processSentence, processSentence, if_neg h, if_neg h]
        have hhd : ({ mkParsedTok t1 (stepSets sets tok) tok
              with text := Option.none } : ParsedTok)
            = { mkParsedTok t2 (stepSets sets tok) tok
              with text := Option.none } := by
          cases t1 <;> cases t2 <;> rfl
        simp only [List.map_cons, hhd, ih (stepSets sets tok)]

/-- The filtering predicate of the spec's words: a token survives iff it
is not whitespace-only and not a hyphen surface form tagged HYPH. -/
def keepTok (t : SpacyToken) : Bool :=
  !t.is_space && !(t.text == "-" && t.tag == "HYPH")

/-- The spec's view of the surviving entries: consecutive ids from `i + 1`
onward, one entry per surviving token in order. -/
def numberFrom : Nat → List SpacyToken → List ConllEntry
  | _, [] => []
  | i, t :: ts => tokenEntry i t :: numberFrom (i + 1) ts

/-- The token loop of `to_conll` is the filter-then-number pipeline. -/
theorem conllBody_eq_numberFrom (toks : List SpacyToken) :
    ∀ i, conllBody toks i = numberFrom i (toks.filter keepTok) := by
  induction toks with
  | nil => intro i; rfl
  | cons tok rest ih =>
    intro i
    rw [conllBody]
    by_cases hs : tok.is_space = false
    · rw [if_pos hs]
      by_cases hh : tok.text ≠ "-" ∨ tok.tag ≠ "HYPH"
      · rw [if_pos hh]
        have hk : keepTok tok = true := by
          simp only [keepTok, hs, Bool.not_false, Bool.true_and,
            Bool.not_eq_true', Bool.and_eq_false_iff, beq_eq_false_iff_ne]
          tauto
        simp [List.filter_cons, hk, numberFrom, ih]
      · rw [if_neg hh]
        have hk : keepTok tok = false := by
          push_neg at hh
          simp [keepTok, hh.1, hh.2]
        simp [List.filter_cons, hk, ih]
    · rw [if_neg hs]
      have hk : keepTok tok = false := by
        simp only [Bool.not_eq_false] at hs
        simp [keepTok, hs]
      simp [List.filter_cons, hk, ih]

/-- Claim C5: a token is appended to the tabular sentence iff it is not
whitespace-only and not a "-" surface form tagged HYPH (the sentence is
the root followed by exactly the filtered tokens, numbered in order), and
every surviving entry's tag fields went through `spacy_pos_to_ptb`. -/
theorem C5_to_conll_filtering :
    (∀ toks, sentence_conll toks = rootEntry :: numberFrom 0 (toks.filter keepTok))
    ∧ (∀ i t, (tokenEntry i t).pos = spacy_pos_to_ptb t.tag t.text
        ∧ (tokenEntry i t).cpos = spacy_pos_to_ptb t.tag t.text) :=
  ⟨fun toks => congrArg (rootEntry :: ·) (conllBody_eq_numberFrom toks 0),
    fun _ _ => ⟨rfl, rfl⟩⟩

/-- The ids of the token loop's entries are consecutive from `i + 1`. -/
theorem conllBody_ids (toks : List SpacyToken) :
    ∀ i, (conllBody toks i).map ConllEntry.id
      = List.range' (i + 1) (conllBody toks i).length := by
  induction toks with
  | nil => intro i; rfl
  | cons tok rest ih =>
    intro i
    rw [conllBody]
    split_ifs with h1 h2
    · simp [tokenEntry, List.range', ih]
    · exact ih i
    · exact ih i

/-- Claim C8: every tabular sentence begins with exactly one synthetic
root entry carrying the sentinel fields (id 0, form and lemma `*root*`,
parent id -1, relation rroot), and the subsequent ids are the consecutive
integers 1, ..., n with no gaps; no non-root entry carries id 0. -/
theorem C8_root_sentinel_and_consecutive_ids :
    (rootEntry.id = 0 ∧ rootEntry.form = "*root*" ∧ rootEntry.lemma_ = "*root*"
      ∧ rootEntry.parent_id = -1 ∧ rootEntry.relation = "rroot")
    ∧ (∀ toks, (sentence_conll toks).head? = some rootEntry
        ∧ (sentence_conll toks).tail.map ConllEntry.id
            = List.range' 1 (sentence_conll toks).tail.length
        ∧ ∀ e ∈ (sentence_conll toks).tail, e.id ≠ 0) := by
  refine ⟨⟨rfl, rfl, rfl, rfl, rfl⟩, fun toks => ⟨rfl, conllBody_ids toks 0, ?_⟩⟩
  intro e he
  have h2 : e.id ∈ (conllBody toks 0).map ConllEntry.id :=
    List.mem_map_of_mem ConllEntry.id he
  rw [conllBody_ids toks 0] at h2
  obtain ⟨j, hj, hje⟩ := List.mem_range'.mp h2
  omega

/-- A concrete non-whitespace annotator token. -/
def tomSample : SpacyToken := ⟨"Tom", "NNP", "Tom", "PERSON", 0, false⟩

/-- Witness for C8 at a concrete input: the first real entry of the
tabular sentence for the one-token sentence "Tom" has a non-zero id. -/
theorem C8_root_sentinel_and_consecutive_ids_witness :
    (tokenEntry 0 tomSample).id ≠ 0 :=
  (C8_root_sentinel_and_consecutive_ids.2 [tomSample]).2.2
    (tokenEntry 0 tomSample) (by decide)

/-- The conjunction sets accumulated by scanning a token list from a
given state, exactly as the per-sentence loop updates them. -/
def scanSets : ConjSets → List PredEntry → ConjSets
  | sets, [] => sets
  | sets, tok :: rest =>
    if tok.entry.form = "*root*" then scanSets sets rest
    else scanSets (stepSets sets tok) rest

/-- Splitting the per-sentence loop at an append boundary: the second half
runs from the sets accumulated over the first half. -/
theorem processSentence_append (tokText : Bool) (l1 l2 : List PredEntry) :
    ∀ sets, processSentence tokText sets (l1 ++ l2)
      = processSentence tokText sets l1
        ++ processSentence tokText (scanSets sets l1) l2 := by
  induction l1 with
  | nil => intro sets; rfl
  | cons tok rest ih =>
    intro sets
    by_cases h : tok.entry.form = "*root*"
    · rw [List.cons_append, processSentence, if_pos h, processSentence,
        if_pos h, scanSets, if_pos h]
      exact ih sets
    · rw [List.cons_append, processSentence, if_neg h, processSentence,
        if_neg h, scanSets, if_neg h]
      simp [ih (stepSets sets tok)]

/-- The and-set of one update step, as a plain conditional. -/
theorem stepSets_andG (sets : ConjSets) (tok : PredEntry) :
    (stepSets sets tok).andG
      = if strLower tok.entry.form = "and"
        then tok.pred_parent_id :: sets.andG else sets.andG := by
  unfold stepSets
  split_ifs <;> rfl

/-- The or-set of one update step, as a plain conditional. -/
theorem stepSets_orG (sets : ConjSets) (tok : PredEntry) :
    (stepSets sets tok).orG
      = if strLower tok.entry.form = "or"
        then tok.pred_parent_id :: sets.orG else sets.orG := by
  unfold stepSets
  split_ifs <;> rfl

/-- A governor in the accumulated and-set was there initially or was put
there by a non-root token spelled "and" in the scanned list. -/
theorem mem_scanSets_andG (g : Int) : ∀ (l : List PredEntry) (sets : ConjSets),
    g ∈ (scanSets sets l).andG →
    g ∈ sets.andG ∨ ∃ u ∈ l, u.entry.form ≠ "*root*"
      ∧ strLower u.entry.form = "and" ∧ u.pred_parent_id = g := by
  intro l
  induction l with
  | nil => exact fun sets h => Or.inl h
  | cons tok rest ih =>
    intro sets h
    by_cases hr : tok.entry.form = "*root*"
    · rw [scanSets, if_pos hr] at h
      rcases ih sets h with h' | ⟨u, hu, h1, h2, h3⟩
      · exact Or.inl h'
      · exact Or.inr ⟨u, List.mem_cons_of_mem _ hu, h1, h2, h3⟩
    · rw [scanSets, if_neg hr] at h
      rcases ih _ h with h' | ⟨u, hu, h1, h2, h3⟩
      · rw [stepSets_andG] at h'
        by_cases ha : strLower tok.entry.form = "and"
        · rw [if_pos ha] at h'
          rcases List.mem_cons.mp h' with he | h''
          · exact Or.inr ⟨tok, List.mem_cons_self _ _, hr, ha, he.symm⟩
          · exact Or.inl h''
        · rw [if_neg ha] at h'
          exact Or.inl h'
      · exact Or.inr ⟨u, List.mem_cons_of_mem _ hu, h1, h2, h3⟩

/-- A governor in the accumulated or-set was there initially or was put
there by a non-root token spelled "or" in the scanned list. -/
theorem mem_scanSets_orG (g : Int) : ∀ (l : List PredEntry) (sets : ConjSets),
    g ∈ (scanSets sets l).orG →
    g ∈ sets.orG ∨ ∃ u ∈ l, u.entry.form ≠ "*root*"
      ∧ strLower u.entry.form = "or" ∧ u.pred_parent_id = g := by
  intro l
  induction l with
  | nil => exact fun sets h => Or.inl h
  | cons tok rest ih =>
    intro sets h
    by_cases hr : tok.entry.form = "*root*"
    · rw [scanSets, if_pos hr] at h
      rcases ih sets h with h' | ⟨u, hu, h1, h2, h3⟩
      · exact Or.inl h'
      · exact Or.inr ⟨u, List.mem_cons_of_mem _ hu, h1, h2, h3⟩
    · rw [scanSets, if_neg hr] at h
      rcases ih _ h with h' | ⟨u, hu, h1, h2, h3⟩
      · rw [stepSets_orG] at h'
        by_cases ha : strLower tok.entry.form = "or"
        · rw [if_pos ha] at h'
          rcases List.mem_cons.mp h' with he | h''
          · exact Or.inr ⟨tok, List.mem_cons_self _ _, hr, ha, he.symm⟩
          · exact Or.inl h''
        · rw [if_neg ha] at h'
          exact Or.inl h'
      · exact Or.inr ⟨u, List.mem_cons_of_mem _ hu, h1, h2, h3⟩

/-- Claim C3: the conjunction resolution is a single forward pass with no
corrective second pass: when a "conj" token occurs strictly before every
"and"/"or" token sharing its governor, its emitted relation stays exactly
"conj" with no suffix. -/
theorem C3_single_forward_pass (tokText : Bool) (pre post : List PredEntry)
    (t : PredEntry) (hrel : t.pred_relation = "conj")
    (hroot : t.entry.form ≠ "*root*")
    (hbefore : ∀ u ∈ pre ++ [t],
      (strLower u.entry.form = "and" ∨ strLower u.entry.form = "or") →
      u.pred_parent_id ≠ t.pred_parent_id) :
    processSentence tokText emptySets (pre ++ t :: post)
      = processSentence tokText emptySets pre
        ++ mkParsedTok tokText (stepSets (scanSets emptySets pre) t) t
          :: processSentence tokText (stepSets (scanSets emptySets pre) t) post
    ∧ (mkParsedTok tokText (stepSets (scanSets emptySets pre) t) t).rel
        = "conj" := by
  have htmem : t ∈ pre ++ [t] := List.mem_append_right _ (List.mem_singleton.mpr rfl)
  have hand : t.pred_parent_id ∉ (stepSets (scanSets emptySets pre) t).andG := by
    intro hmem
    rw [stepSets_andG] at hmem
    have hscan : t.pred_parent_id ∈ (scanSets emptySets pre).andG := by
      by_cases ha : strLower t.entry.form = "and"
      · exact absurd rfl (hbefore t htmem (Or.inl ha))
      · rwa [if_neg ha] at hmem
    rcases mem_scanSets_andG _ pre emptySets hscan with h0 | ⟨u, hu, _, hu2, hu3⟩
    · exact absurd h0 (List.not_mem_nil _)
    · exact hbefore u (List.mem_append_left _ hu) (Or.inl hu2) hu3
  have hor : t.pred_parent_id ∉ (stepSets (scanSets emptySets pre) t).orG := by
    intro hmem
    rw [stepSets_orG] at hmem
    have hscan : t.pred_parent_id ∈ (scanSets emptySets pre).orG := by
      by_cases ha : strLower t.entry.form = "or"
      · exact absurd rfl (hbefore t htmem (Or.inr ha))
      · rwa [if_neg ha] at hmem
    rcases mem_scanSets_orG _ pre emptySets hscan with h0 | ⟨u, hu, _, hu2, hu3⟩
    · exact absurd h0 (List.not_mem_nil _)
    · exact hbefore u (List.mem_append_left _ hu) (Or.inr hu2) hu3
  constructor
  · rw [processSentence_append tokText pre (t :: post) emptySets,
      processSentence, if_neg hroot]
  · show resolveRel (stepSets (scanSets emptySets pre) t) t = "conj"
    rw [resolveRel, if_pos hrel]
    simp only [if_neg hand, if_neg hor]
    exact hrel

/-- A concrete predicted token: "Tom" as a conjunct of governor 3. -/
def tomConjSample : PredEntry :=
  ⟨⟨1, "Tom", "Tom", "NNP", "NNP", "PERSON", -1, "_", "_", Misc.offset 0⟩,
    3, "conj"⟩

/-- Witness for C3 at a concrete input: the conjunct precedes the only
"and" token sharing its governor, so its relation stays bare "conj". -/
theorem C3_single_forward_pass_witness :
    (mkParsedTok true (stepSets (scanSets emptySets []) tomConjSample)
      tomConjSample).rel = "conj" :=
  (C3_single_forward_pass true [] [andSample] tomConjSample rfl (by decide)
    (by decide)).2

/-- The sentence loop keeps exactly the non-empty processed sentences. -/
theorem assembleSentences_eq_filter (tokText : Bool) :
    ∀ preds, assembleSentences tokText preds
      = ((preds.map (processSentence tokText emptySets)).filter
          fun l => !l.isEmpty) := by
  intro preds
  induction preds with
  | nil => rfl
  | cons sent rest ih =>
    rw [assembleSentences]
    by_cases h : processSentence tokText emptySets sent = []
    · rw [if_neg (by simpa using h)]
      simp [List.filter_cons, h, ih]
    · rw [if_pos h]
      simp [List.filter_cons, h, ih, List.isEmpty_iff]

/-- An all-whitespace sentence contributes no entry to the token loop. -/
theorem conllBody_all_space (toks : List SpacyToken)
    (h : ∀ t ∈ toks, t.is_space = true) : ∀ i, conllBody toks i = [] := by
  induction toks with
  | nil => intro i; rfl
  | cons tok rest ih =>
    intro i
    rw [conllBody, if_neg (by simp [h tok (List.mem_cons_self _ _)])]
    exact ih (fun t ht => h t (List.mem_cons_of_mem _ ht)) i

/-- Claim C6: the sentence loop of `parse` appends a processed sentence
only when it is non-empty, so the output document never contains an empty
sentence; and a sentence of whitespace-only tokens processes to the empty
record list, hence is omitted. -/
theorem C6_empty_sentences_omitted :
    (∀ tokText preds, assembleSentences tokText preds
      = ((preds.map (processSentence tokText emptySets)).filter
          fun l => !l.isEmpty))
    ∧ (∀ annotator oracle s st sd doc,
        parse annotator oracle (PyVal.str s) (PyVal.bool st) (PyVal.bool sd)
          = some doc → [] ∉ doc.sentences)
    ∧ (∀ oracle si tokText sets toks, (∀ t ∈ toks, t.is_space = true) →
        processSentence tokText sets
          (predictSentence oracle si (sentence_conll toks)) = []) := by
  refine ⟨fun tokText preds => assembleSentences_eq_filter tokText preds,
    fun annotator oracle s st sd doc h => ?_, fun oracle si tokText sets toks hws => ?_⟩
  · injection h with h'
    subst h'
    show [] ∉ assembleSentences st _
    rw [assembleSentences_eq_filter]
    intro hmem
    have := (List.mem_filter.mp hmem).2
    simp at this
  · rw [show sentence_conll toks = [rootEntry] by
      rw [sentence_conll, conllBody_all_space toks hws 0]]
    simp [predictSentence, processSentence, rootEntry]

/-- A concrete whitespace-only annotator token. -/
def spaceSample : SpacyToken := ⟨" ", "_SP", " ", "", 3, true⟩

/-- Witness for C6 at a concrete input: the whitespace-only one-token
sentence processes to no output records. -/
theorem C6_empty_sentences_omitted_witness :
    processSentence true emptySets
      (predictSentence (fun _ _ => (0, "dep")) 0 (sentence_conll [spaceSample]))
      = [] :=
  C6_empty_sentences_omitted.2.2 (fun _ _ => (0, "dep")) 0 true emptySets
    [spaceSample] (by decide)

/-- Claim C7: when `doc_text` is not a string, or either flag is not
exactly a bool, `parse` returns no value, for every annotator and
predictor (so no annotation or prediction work can influence the result);
likewise `to_conll` yields no sentences on a non-string input. -/
theorem C7_silent_type_guard :
    (∀ annotator oracle dt ts ds,
      (dt.isStr = false ∨ ts.isBool = false ∨ ds.isBool = false) →
      parse annotator oracle dt ts ds = Option.none)
    ∧ (∀ annotator dt, dt.isStr = false → to_conll annotator dt = []) := by
  constructor
  · intro annotator oracle dt ts ds h
    cases dt <;> cases ts <;> cases ds <;>
      simp_all [parse, PyVal.isStr, PyVal.isBool]
  · intro annotator dt h
    cases dt <;> simp_all [to_conll, PyVal.isStr]

/-- Witness for C7 at a concrete input: an integer document argument
yields no document and no tabular sentences. -/
theorem C7_silent_type_guard_witness :
    parse (fun _ => []) (fun _ _ => (0, "_")) (PyVal.int 7) (PyVal.bool true)
        (PyVal.bool true) = Option.none
    ∧ to_conll (fun _ => []) (PyVal.int 7) = [] :=
  ⟨C7_silent_type_guard.1 (fun _ => []) (fun _ _ => (0, "_")) (PyVal.int 7)
      (PyVal.bool true) (PyVal.bool true) (Or.inl rfl),
    C7_silent_type_guard.2 (fun _ => []) (PyVal.int 7) rfl⟩

/-- Claim C9: with the annotator and the predictor modelled as
deterministic functions, two calls of `parse` on the same arguments yield
structurally identical documents: same optional document text and same
sentence list. -/
theorem C9_parse_deterministic (annotator : String → List (List SpacyToken))
    (oracle : Nat → Nat → Int × String) (dt ts ds : PyVal)
    (d1 d2 : CoreNLPDoc)
    (h1 : parse annotator oracle dt ts ds = some d1)
    (h2 : parse annotator oracle dt ts ds = some d2) :
    d1.doc_text = d2.doc_text ∧ d1.sentences = d2.sentences := by
  rw [h1] at h2
  cases Option.some.inj h2
  exact ⟨rfl, rfl⟩

/-- Witness for C9 at a concrete input: two identical calls on the text
"Tom" agree on both components. -/
theorem C9_parse_deterministic_witness :
    (CoreNLPDoc.mk (some "Tom") []).doc_text
        = (CoreNLPDoc.mk (some "Tom") []).doc_text
    ∧ (CoreNLPDoc.mk (some "Tom") []).sentences
        = (CoreNLPDoc.mk (some "Tom") []).sentences :=
  C9_parse_deterministic (fun _ => []) (fun _ _ => (0, "_")) (PyVal.str "Tom")
    (PyVal.bool true) (PyVal.bool true) _ _ rfl rfl
